import Mathlib

/-!
Shallow embedding of the SyncService of the desktop-note-tracker project
(file webpack.electron.config.js, class SyncService), together with proofs
about its merge, flush, pull, id-normalization and queueing behaviour.

Modelling conventions:
* a local note (react Note type) carries id, text, timestamp (ms) and tags;
* a cloud row carries id, content, updated_at and tags; the code only ever
  uses `new Date(row.updated_at).getTime()`, so `updated_at` is modelled
  directly as that millisecond value (an Int, as JS getTime returns);
* the JS `Map` used by mergeNotes is modelled as an insertion-ordered
  association list: `set` on a present key updates in place, otherwise
  appends, exactly as JS Map does;
* `Array.prototype.sort` (stable since ES2019) is modelled by
  `List.mergeSort` with the comparator of the source,
  `(a, b) => b.timestamp - a.timestamp`, i.e. descending timestamps.
-/

/-- Local note shape (src/react/types). -/
structure LocalNote where
  id : String
  text : String
  timestamp : Int
  tags : List String
deriving DecidableEq, Repr

/-- Cloud note row as used by the sync code; `updated_at` is the parsed
millisecond value of the ISO string, see module docstring. -/
structure CloudNote where
  id : String
  content : String
  updated_at : Int
  tags : List String
deriving DecidableEq, Repr

/-- convertCloudToLocalNote (lines 137-144). -/
def convertCloudToLocalNote (cloudNote : CloudNote) : LocalNote :=
  { id := cloudNote.id
    text := cloudNote.content
    timestamp := cloudNote.updated_at
    tags := cloudNote.tags }

/-- JS `Map.prototype.set`: update in place when the key is present
(keeping its position), otherwise append at the end. -/
def mapSet (m : List (String × LocalNote)) (k : String) (v : LocalNote) :
    List (String × LocalNote) :=
  if m.any (fun p => p.1 = k) then
    m.map (fun p => if p.1 = k then (k, v) else p)
  else
    m ++ [(k, v)]

/-- JS `Map.prototype.get` (`none` models `undefined`). -/
def mapGet (m : List (String × LocalNote)) (k : String) : Option LocalNote :=
  (m.find? (fun p => p.1 = k)).map Prod.snd

/-- The per-row body of the cloud forEach of mergeNotes (lines 290-305):
insert a cloud row with an unknown id, and replace a known local note only
when the cloud timestamp is strictly greater. -/
def mergeStep (m : List (String × LocalNote)) (cloudNote : CloudNote) :
    List (String × LocalNote) :=
  match mapGet m cloudNote.id with
  | none => mapSet m cloudNote.id (convertCloudToLocalNote cloudNote)
  | some localNote =>
    if cloudNote.updated_at > localNote.timestamp then
      mapSet m cloudNote.id (convertCloudToLocalNote cloudNote)
    else m

/-- mergeNotes, continued: insert every local note, fold mergeStep over the
cloud rows, and list the values sorted by descending timestamp. -/
def mergeNotes (localNotes : List LocalNote) (cloudNotes : List CloudNote) :
    List LocalNote :=
  let m0 := localNotes.foldl (fun m note => mapSet m note.id note) []
  let m1 := cloudNotes.foldl mergeStep m0
  (m1.map Prod.snd).mergeSort (fun a b => decide (b.timestamp ≤ a.timestamp))

/-- C1 (counterexample): on exact timestamp equality the merge keeps the
LOCAL record, not the remote one, because the source comparison
`cloudTimestamp > localNote.timestamp` is strict; here both sides have
timestamp 100 yet differ in text, and the merged result is the local note. -/
theorem mergeNotes_equal_timestamp_keeps_local :
    (LocalNote.mk "n1" "local text" 100 []).timestamp
        ≤ (CloudNote.mk "n1" "remote text" 100 []).updated_at
    ∧ mergeNotes [LocalNote.mk "n1" "local text" 100 []]
        [CloudNote.mk "n1" "remote text" 100 []]
        = [LocalNote.mk "n1" "local text" 100 []]
    ∧ convertCloudToLocalNote (CloudNote.mk "n1" "remote text" 100 [])
        ≠ LocalNote.mk "n1" "local text" 100 [] := by
  refine ⟨by decide, ?_, by decide⟩
  simp [mergeNotes, mergeStep, mapSet, mapGet, List.find?]

/-- C1 (amended): for a local note L and remote row R with the same id, the
merge keeps the remote version (converted, replacing the record in full)
exactly when R.updated_at is STRICTLY greater than L.timestamp, and keeps
the local version otherwise — so on exact equality the local record wins;
the decision depends only on the comparison of the two timestamps. -/
theorem mergeNotes_resolution (L : LocalNote) (R : CloudNote)
    (h : R.id = L.id) :
    mergeNotes [L] [R] =
      if L.timestamp < R.updated_at then [convertCloudToLocalNote R] else [L] := by
  rcases lt_or_ge L.timestamp R.updated_at with hlt | hge
  · simp [mergeNotes, mergeStep, mapSet, mapGet, List.find?, h, hlt]
  · have hnot : ¬ (L.timestamp < R.updated_at) := not_lt.mpr hge
    simp [mergeNotes, mergeStep, mapSet, mapGet, List.find?, h, hnot]

/-- C1 (witness for the amended theorem at a concrete input). -/
theorem mergeNotes_resolution_witness :
    mergeNotes [LocalNote.mk "a" "t" 5 []] [CloudNote.mk "a" "c" 7 []] =
      [convertCloudToLocalNote (CloudNote.mk "a" "c" 7 [])] := by
  have h := mergeNotes_resolution (LocalNote.mk "a" "t" 5 [])
    (CloudNote.mk "a" "c" 7 []) (by decide)
  simpa using h

/-- Chat message shape (only its count is ever used by getSyncStatus). -/
structure ChatMessage where
  role : String
  content : String
  timestamp : Int
deriving DecidableEq, Repr

/-- State of the SyncService: the electron-store keys `notes`,
`pendingNotes` and `lastSyncTime`, the in-memory `syncState` mirror of the
pending queues and checkpoint, the online flag and the optional user id.
In the source `lastSyncTime` is always written to the store and to
`syncState` together (lines 272-273), so one field models both. -/
structure EngineState where
  storeNotes : List LocalNote
  storePendingNotes : List LocalNote
  memPendingNotes : List LocalNote
  pendingMessages : List ChatMessage
  lastSyncTime : Int
  isOnline : Bool
  userId : Option String
deriving DecidableEq, Repr

/-- addToPendingNotes (lines 210-215): drop any queued entry with the same
id, push the new note at the end, and write the queue to both `syncState`
and the store. -/
def addToPendingNotes (st : EngineState) (note : LocalNote) : EngineState :=
  let pending := (st.memPendingNotes.filter fun n => n.id ≠ note.id) ++ [note]
  { st with memPendingNotes := pending, storePendingNotes := pending }

/-- The `notes` update of saveNoteLocally (lines 164-174): replace the first
entry with a matching id, else unshift at the front. -/
def saveNotesList (notes : List LocalNote) (note : LocalNote) : List LocalNote :=
  match notes.findIdx? (fun n => n.id = note.id) with
  | some i => notes.set i note
  | none => note :: notes

/-- saveNoteLocally without the flush it triggers (lines 163-185): update
the stored note list, and when authenticated queue the note for sync.
When additionally online the source then invokes syncPendingChanges
(without awaiting it); that flush is modelled as a separate transition. -/
def saveNoteLocallyCore (st : EngineState) (note : LocalNote) : EngineState :=
  let st1 := { st with storeNotes := saveNotesList st.storeNotes note }
  if st1.userId.isSome then addToPendingNotes st1 note else st1

/-- The flush loop of syncPendingChanges (lines 222-243): iterate over a
snapshot of the queue; `ok k` tells whether the k-th upsert call succeeds.
On success the id of the entry is filtered out of the in-memory queue; on the
first failure the loop breaks. The store is NOT written inside the loop. -/
def flushGo (ok : Nat → Bool) :
    Nat → List LocalNote → List LocalNote → List LocalNote
  | _, mem, [] => mem
  | k, mem, note :: rest =>
    if ok k then
      flushGo ok (k + 1) (mem.filter fun n => n.id ≠ note.id) rest
    else mem

/-- syncPendingChanges (lines 218-247): guarded by authentication and the
online flag; runs the flush loop on a snapshot of the in-memory queue and
afterwards persists the final in-memory queue to the store (line 246). -/
def syncPendingChanges (ok : Nat → Bool) (st : EngineState) : EngineState :=
  if st.userId.isSome && st.isOnline then
    let mem := flushGo ok 0 st.memPendingNotes st.memPendingNotes
    { st with memPendingNotes := mem, storePendingNotes := mem }
  else st

/-- saveNoteLocally including the flush it triggers when online. -/
def saveNoteLocally (ok : Nat → Bool) (st : EngineState) (note : LocalNote) :
    EngineState :=
  let st1 := saveNoteLocallyCore st note
  if st1.userId.isSome && st1.isOnline then syncPendingChanges ok st1 else st1

/-- The notes for which the flush loop issues an upsert call: every entry up
to and including the first failing one, in queue order. -/
def flushAttempts (ok : Nat → Bool) : Nat → List LocalNote → List LocalNote
  | _, [] => []
  | k, note :: rest =>
    note :: (if ok k then flushAttempts ok (k + 1) rest else [])

/-- State of the service after the first j iterations of the flush loop,
before iteration j+1 starts: the in-memory queue has been shrunk by the
processed entries, while the loop body contains no store write, so the
persisted queue is still the one from before the flush. -/
def flushStateAfter (ok : Nat → Bool) (st : EngineState) (j : Nat) :
    EngineState :=
  { st with memPendingNotes :=
      flushGo ok 0 st.memPendingNotes (st.memPendingNotes.take j) }

/-- deleteNoteLocally (lines 188-207): remove the note from the stored list;
the cloud-side delete touches no local state (and its failure is caught). -/
def deleteNoteLocally (st : EngineState) (noteId : String) : EngineState :=
  { st with storeNotes := st.storeNotes.filter fun note => note.id ≠ noteId }

/-- getSyncStatus result shape (lines 370-382). -/
structure SyncStatus where
  isOnline : Bool
  pendingChanges : Nat
  lastSyncTime : Int
  isAuthenticated : Bool
deriving DecidableEq, Repr

/-- getSyncStatus (lines 370-382). -/
def getSyncStatus (st : EngineState) : SyncStatus :=
  { isOnline := st.isOnline
    pendingChanges := st.memPendingNotes.length + st.pendingMessages.length
    lastSyncTime := st.lastSyncTime
    isAuthenticated := st.userId.isSome }

/-- Outcome of the remote select of syncFromCloud: an error, or the list of
rows returned. -/
inductive PullOutcome where
  | failure : PullOutcome
  | success : List CloudNote → PullOutcome
deriving DecidableEq, Repr

/-- syncFromCloud (lines 250-278): guarded by authentication and the online
flag; on error nothing changes (catch only logs); on success with at least
one row the merged notes are stored and the checkpoint is set to `now`
(Date.now() at completion, lines 272-273); with zero rows nothing changes. -/
def syncFromCloud (st : EngineState) (res : PullOutcome) (now : Int) :
    EngineState :=
  if st.userId.isSome && st.isOnline then
    match res with
    | .failure => st
    | .success cloudNotes =>
      if 0 < cloudNotes.length then
        { st with storeNotes := mergeNotes st.storeNotes cloudNotes
                  lastSyncTime := now }
      else st
  else st

/-- A sequence of pull cycles, each with its outcome and its Date.now(). -/
def runPulls (st : EngineState) : List (PullOutcome × Int) → EngineState
  | [] => st
  | (res, now) :: rest => runPulls (syncFromCloud st res now) rest

/-- JS `Number.prototype.toString(16)` on a nibble. -/
def hexDigit (n : Nat) : Char :=
  if n < 10 then Char.ofNat (48 + n) else Char.ofNat (87 + n)

/-- The template string of generateUUID (line 78). -/
def uuidTemplate : List Char :=
  ['x','x','x','x','x','x','x','x','-','x','x','x','x','-','4',
   'x','x','x','-','y','x','x','x','-',
   'x','x','x','x','x','x','x','x','x','x','x','x']

/-- The regex replace of generateUUID (lines 78-82): every `x` becomes a
random nibble `r = Math.random()*16|0` in hex, every `y` becomes
`r & 0x3 | 0x8` (that is `r % 4 + 8`) in hex, other characters stay; the
k-th replaced character uses the k-th random draw. -/
def replaceUuidChars (r : Nat → Nat) : Nat → List Char → List Char
  | _, [] => []
  | k, c :: cs =>
    if c = 'x' then hexDigit (r k % 16) :: replaceUuidChars r (k + 1) cs
    else if c = 'y' then
      hexDigit ((r k % 16) % 4 + 8) :: replaceUuidChars r (k + 1) cs
    else c :: replaceUuidChars r k cs

/-- generateUUID (lines 77-83), parameterized by the Math.random draws. -/
def generateUUID (r : Nat → Nat) : String :=
  String.mk (replaceUuidChars r 0 uuidTemplate)

/-- isTimestampId (line 86): the regex test `/^\d+$/`, a nonempty string of
ASCII digits. -/
def isTimestampId (id : String) : Bool :=
  id.length != 0 && id.data.all (fun c => c.isDigit)

/-- The notes.map of fixOldNoteIds (lines 89-95) with its sequence of
generateUUID calls: `gens k` supplies the Math.random draws of the k-th
generateUUID call (calls happen only for rewritten notes, in list order). -/
def fixNotesGo (gens : Nat → Nat → Nat) : Nat → List LocalNote → List LocalNote
  | _, [] => []
  | k, note :: rest =>
    if isTimestampId note.id then
      { note with id := generateUUID (gens k) } :: fixNotesGo gens (k + 1) rest
    else
      note :: fixNotesGo gens k rest

/-- fixOldNoteIds (lines 72-106): rewrite stored notes with digit-only ids,
drop pending entries with digit-only ids, and persist (store and syncState)
only when something changed. -/
def fixOldNoteIds (gens : Nat → Nat → Nat) (st : EngineState) : EngineState :=
  let notes := st.storeNotes
  let pendingNotes := st.storePendingNotes
  let fixedNotes := fixNotesGo gens 0 notes
  let fixedPending := pendingNotes.filter fun note => !(isTimestampId note.id)
  let hasChanges := notes.any fun note => isTimestampId note.id
  if hasChanges || pendingNotes.length != fixedPending.length then
    { st with storeNotes := fixedNotes
              storePendingNotes := fixedPending
              memPendingNotes := fixedPending }
  else st

/-- The operations a sync trigger invokes, in invocation order. -/
inductive SyncOp where
  | fixIds : SyncOp
  | startTimer : SyncOp
  | stopTimer : SyncOp
  | pullCloud : SyncOp
  | flushPending : SyncOp
deriving DecidableEq, Repr

/-- Body of the 30-second interval callback (lines 112-117): when online and
authenticated it invokes syncFromCloud first, then syncPendingChanges
(neither awaited). -/
def periodicTickOps (online authenticated : Bool) : List SyncOp :=
  if online && authenticated then [.pullCloud, .flushPending] else []

/-- forcSync (lines 385-391): when authenticated and online it awaits
syncPendingChanges, then awaits syncFromCloud. -/
def forcSyncOps (authenticated online : Bool) : List SyncOp :=
  if authenticated && online then [.flushPending, .pullCloud] else []

/-- setUserId (lines 60-69): on login it runs fixOldNoteIds, re-arms the
periodic timer, and triggers one syncFromCloud; on logout it stops the
timer. -/
def setUserIdOps (userId : Option String) : List SyncOp :=
  match userId with
  | some _ => [.fixIds, .startTimer, .pullCloud]
  | none => [.stopTimer]

/-- Whether a flush is invoked and the first flush invocation comes before
the first pull invocation. -/
def flushBeforePull (ops : List SyncOp) : Bool :=
  ops.contains SyncOp.flushPending &&
    (ops.indexOf SyncOp.flushPending < ops.indexOf SyncOp.pullCloud)

/-- Ids of a queue, and their distinctness (the queue invariant). -/
def queueIds (q : List LocalNote) : List String := q.map (fun n => n.id)

/-- Distinctness of the ids of a queue. -/
def idsNodup (q : List LocalNote) : Prop := (queueIds q).Nodup

/-- Filtering a queue by an id that does not occur in it changes nothing. -/
theorem filter_id_eq_of_not_mem {q : List LocalNote} {s : String}
    (hs : s ∉ queueIds q) : (q.filter fun n => n.id ≠ s) = q := by
  apply List.filter_eq_self.mpr
  intro a ha
  simp only [decide_eq_true_eq]
  intro hcontra
  exact hs (hcontra ▸ List.mem_map_of_mem (fun n => n.id) ha)

/-- Tail of a distinct-id queue is distinct, and the head id is fresh. -/
theorem idsNodup_cons {n : LocalNote} {q : List LocalNote}
    (h : idsNodup (n :: q)) : n.id ∉ queueIds q ∧ idsNodup q := by
  simpa [idsNodup, queueIds] using h

/-- The flush loop with a failure at attempt j (all earlier attempts
succeeding) returns the queue with the first j entries dropped. -/
theorem flushGo_fail_drop :
    ∀ (q : List LocalNote) (ok : Nat → Bool) (k j : Nat),
      idsNodup q → j < q.length →
      (∀ i, i < j → ok (k + i) = true) → ok (k + j) = false →
      flushGo ok k q q = q.drop j := by
  intro q
  induction q with
  | nil => intro ok k j _ hj _ _; simp at hj
  | cons n rest ih =>
    intro ok k j hnodup hj hsucc hfail
    rcases idsNodup_cons hnodup with ⟨hfresh, htail⟩
    cases j with
    | zero =>
      have h0 : ok k = false := by simpa using hfail
      simp [flushGo, h0]
    | succ j =>
      have h0 : ok k = true := by
        have := hsucc 0 (Nat.succ_pos j)
        simpa using this
      have hmem : (rest.filter fun m => m.id ≠ n.id) = rest :=
        filter_id_eq_of_not_mem hfresh
      have hrec := ih ok (k + 1) j htail (by simpa using hj)
        (fun i hi => by
          have := hsucc (i + 1) (Nat.succ_lt_succ hi)
          simpa [Nat.add_assoc, Nat.add_comm 1 i] using this)
        (by simpa [Nat.add_assoc, Nat.add_comm 1 j] using hfail)
      have hstep : flushGo ok k (n :: rest) (n :: rest)
          = flushGo ok (k + 1) (rest.filter fun m => m.id ≠ n.id) rest := by
        simp [flushGo, h0]
      rw [hstep, hmem, hrec]
      rfl

/-- When every attempt over the snapshot succeeds, the flush loop is the
fold of per-entry id removals. -/
theorem flushGo_allOk :
    ∀ (l : List LocalNote) (ok : Nat → Bool) (k : Nat)
      (mem : List LocalNote),
      (∀ i, i < l.length → ok (k + i) = true) →
      flushGo ok k mem l =
        l.foldl (fun acc note => acc.filter fun m => m.id ≠ note.id) mem := by
  intro l
  induction l with
  | nil => intro ok k mem _; simp [flushGo]
  | cons n rest ih =>
    intro ok k mem hok
    have h0 : ok k = true := by simpa using hok 0 (Nat.succ_pos rest.length)
    have hrec := ih ok (k + 1) (mem.filter fun m => m.id ≠ n.id)
      (fun i hi => by
        have := hok (i + 1) (Nat.succ_lt_succ hi)
        simpa [Nat.add_assoc, Nat.add_comm 1 i] using this)
    have hstep : flushGo ok k mem (n :: rest)
        = flushGo ok (k + 1) (mem.filter fun m => m.id ≠ n.id) rest := by
      simp [flushGo, h0]
    rw [hstep, hrec, List.foldl_cons]

/-- With every upsert succeeding, the flush loop attempts every entry. -/
theorem flushAttempts_allOk :
    ∀ (q : List LocalNote) (ok : Nat → Bool) (k : Nat),
      (∀ i, ok i = true) → flushAttempts ok k q = q := by
  intro q
  induction q with
  | nil => intro ok k _; simp [flushAttempts]
  | cons n rest ih =>
    intro ok k hok
    simp [flushAttempts, hok k, ih ok (k + 1) hok]

/-- C3 (counterexample): with a queue of two notes and every upsert
succeeding, after the first iteration (the first upsert already
acknowledged) the in-memory queue has shrunk to the second note, but the
persisted queue still holds both entries — the acknowledged entry is still
persisted between the two upsert attempts, because the loop body never
writes the store. -/
theorem syncPendingChanges_no_midflush_persist :
    (flushStateAfter (fun _ => true)
        ⟨[], [⟨"a", "ta", 1, []⟩, ⟨"b", "tb", 2, []⟩],
          [⟨"a", "ta", 1, []⟩, ⟨"b", "tb", 2, []⟩], [], 0, true, some "u"⟩
        1).memPendingNotes = [⟨"b", "tb", 2, []⟩]
    ∧ (flushStateAfter (fun _ => true)
        ⟨[], [⟨"a", "ta", 1, []⟩, ⟨"b", "tb", 2, []⟩],
          [⟨"a", "ta", 1, []⟩, ⟨"b", "tb", 2, []⟩], [], 0, true, some "u"⟩
        1).storePendingNotes
      = [⟨"a", "ta", 1, []⟩, ⟨"b", "tb", 2, []⟩] := by
  constructor <;> rfl

/-- C3 (amended): after each successful upsert the acknowledged entry is
removed from the IN-MEMORY queue immediately, before the next attempt; but
the shrunk queue is persisted to the store only once, after the flush loop
ends — during the loop the persisted queue stays what it was before the
flush, so between two attempts it can still contain acknowledged entries. -/
theorem syncPendingChanges_memory_then_persist (ok : Nat → Bool)
    (st : EngineState) (j : Nat) (nj : LocalNote)
    (hauth : st.userId.isSome = true) (honline : st.isOnline = true)
    (hj : st.memPendingNotes[j]? = some nj)
    (hok : ∀ i, i ≤ j → ok i = true) :
    (flushStateAfter ok st (j + 1)).memPendingNotes
      = ((flushStateAfter ok st j).memPendingNotes).filter
          (fun n => n.id ≠ nj.id)
    ∧ (flushStateAfter ok st j).storePendingNotes = st.storePendingNotes
    ∧ (syncPendingChanges ok st).storePendingNotes
        = (syncPendingChanges ok st).memPendingNotes := by
  refine ⟨?_, rfl, ?_⟩
  · have hjlen : j < st.memPendingNotes.length :=
      List.getElem?_eq_some_iff.mp hj |>.1
    have htake : st.memPendingNotes.take (j + 1)
        = st.memPendingNotes.take j ++ [nj] := by
      rw [List.take_succ, hj]; rfl
    have hlen1 : (st.memPendingNotes.take (j + 1)).length ≤ j + 1 :=
      List.length_take_le (j + 1) st.memPendingNotes
    have hall1 : ∀ i, i < (st.memPendingNotes.take (j + 1)).length →
        ok (0 + i) = true := by
      intro i hi
      have : i ≤ j := Nat.lt_succ_iff.mp (Nat.lt_of_lt_of_le hi hlen1)
      simpa using hok i this
    have hall0 : ∀ i, i < (st.memPendingNotes.take j).length →
        ok (0 + i) = true := by
      intro i hi
      have hi2 : i < j := Nat.lt_of_lt_of_le hi (List.length_take_le j _)
      simpa using hok i (Nat.le_of_lt hi2)
    simp only [flushStateAfter]
    rw [flushGo_allOk _ ok 0 _ hall1, flushGo_allOk _ ok 0 _ hall0,
      htake, List.foldl_append]
    rfl
  · simp [syncPendingChanges, hauth, honline]

/-- C3 (witness). -/
theorem syncPendingChanges_memory_then_persist_witness :
    (flushStateAfter (fun _ => true)
        ⟨[], [⟨"a", "ta", 1, []⟩, ⟨"c", "tc", 2, []⟩],
          [⟨"a", "ta", 1, []⟩, ⟨"c", "tc", 2, []⟩], [], 0, true, some "u"⟩
        1).memPendingNotes
      = ((flushStateAfter (fun _ => true)
        ⟨[], [⟨"a", "ta", 1, []⟩, ⟨"c", "tc", 2, []⟩],
          [⟨"a", "ta", 1, []⟩, ⟨"c", "tc", 2, []⟩], [], 0, true, some "u"⟩
        0).memPendingNotes).filter
          (fun n => n.id ≠ (LocalNote.mk "a" "ta" 1 []).id)
    ∧ (flushStateAfter (fun _ => true)
        ⟨[], [⟨"a", "ta", 1, []⟩, ⟨"c", "tc", 2, []⟩],
          [⟨"a", "ta", 1, []⟩, ⟨"c", "tc", 2, []⟩], [], 0, true, some "u"⟩
        0).storePendingNotes
      = [⟨"a", "ta", 1, []⟩, ⟨"c", "tc", 2, []⟩]
    ∧ (syncPendingChanges (fun _ => true)
        ⟨[], [⟨"a", "ta", 1, []⟩, ⟨"c", "tc", 2, []⟩],
          [⟨"a", "ta", 1, []⟩, ⟨"c", "tc", 2, []⟩], [], 0, true, some "u"⟩
        ).storePendingNotes
      = (syncPendingChanges (fun _ => true)
        ⟨[], [⟨"a", "ta", 1, []⟩, ⟨"c", "tc", 2, []⟩],
          [⟨"a", "ta", 1, []⟩, ⟨"c", "tc", 2, []⟩], [], 0, true, some "u"⟩
        ).memPendingNotes :=
  syncPendingChanges_memory_then_persist (fun _ => true) _ 0
    (LocalNote.mk "a" "ta" 1 []) (by rfl) (by rfl) (by rfl) (fun i _ => rfl)

/-- C4: when the j-th upsert of a flush fails (0-based; all earlier ones
succeeding) over a queue with distinct ids, the flush stops there: the
entries before position j are removed, and the entry at j together with all
later entries remains, in the original order, both in memory and in the
persisted store. -/
theorem syncPendingChanges_first_failure (ok : Nat → Bool)
    (st : EngineState) (j : Nat)
    (hauth : st.userId.isSome = true) (honline : st.isOnline = true)
    (hnodup : idsNodup st.memPendingNotes)
    (hj : j < st.memPendingNotes.length)
    (hsucc : ∀ i, i < j → ok i = true) (hfail : ok j = false) :
    (syncPendingChanges ok st).memPendingNotes = st.memPendingNotes.drop j
    ∧ (syncPendingChanges ok st).storePendingNotes
        = st.memPendingNotes.drop j := by
  have hdrop := flushGo_fail_drop st.memPendingNotes ok 0 j hnodup hj
    (fun i hi => by simpa using hsucc i hi) (by simpa using hfail)
  constructor <;> simp [syncPendingChanges, hauth, honline, hdrop]

/-- C4 (witness): a three-entry queue whose second upsert fails keeps
exactly the last two entries queued. -/
theorem syncPendingChanges_first_failure_witness :
    (syncPendingChanges (fun k => k == 0)
      ⟨[], [⟨"a", "ta", 1, []⟩, ⟨"b", "tb", 2, []⟩, ⟨"c", "tc", 3, []⟩],
        [⟨"a", "ta", 1, []⟩, ⟨"b", "tb", 2, []⟩, ⟨"c", "tc", 3, []⟩],
        [], 0, true, some "u"⟩).memPendingNotes
      = [⟨"a", "ta", 1, []⟩, ⟨"b", "tb", 2, []⟩,
          ⟨"c", "tc", 3, []⟩].drop 1
    ∧ (syncPendingChanges (fun k => k == 0)
      ⟨[], [⟨"a", "ta", 1, []⟩, ⟨"b", "tb", 2, []⟩, ⟨"c", "tc", 3, []⟩],
        [⟨"a", "ta", 1, []⟩, ⟨"b", "tb", 2, []⟩, ⟨"c", "tc", 3, []⟩],
        [], 0, true, some "u"⟩).storePendingNotes
      = [⟨"a", "ta", 1, []⟩, ⟨"b", "tb", 2, []⟩,
          ⟨"c", "tc", 3, []⟩].drop 1 :=
  syncPendingChanges_first_failure (fun k => k == 0) _ 1 (by rfl) (by rfl)
    (by simp [idsNodup, queueIds]) (by simp)
    (fun i hi => by
      have h0 : i = 0 := Nat.lt_one_iff.mp hi
      subst h0
      rfl)
    (by rfl)

/-- C2 (counterexample): the periodic 30-second tick invokes the pull
(syncFromCloud) BEFORE the flush (syncPendingChanges), and the cycle
triggered at login invokes no flush at all — so it is not the case that
every cycle flushes before it pulls. -/
theorem periodic_tick_pulls_before_flush :
    flushBeforePull (periodicTickOps true true) = false
    ∧ (periodicTickOps true true).indexOf SyncOp.pullCloud
        < (periodicTickOps true true).indexOf SyncOp.flushPending
    ∧ SyncOp.flushPending ∉ setUserIdOps (some "u") := by
  refine ⟨rfl, by decide, by decide⟩

/-- C2 (amended): of the cycles that run while online and authenticated,
only forcSync runs a Flushing→Pulling cycle (flush then pull, each
awaited); the periodic 30-second tick invokes the pull first and the flush
second; and the post-login trigger runs fixOldNoteIds, re-arms the timer
and starts one pull, with no flush. -/
theorem sync_trigger_order (uid : String) :
    flushBeforePull (forcSyncOps true true) = true
    ∧ forcSyncOps true true = [SyncOp.flushPending, SyncOp.pullCloud]
    ∧ flushBeforePull (periodicTickOps true true) = false
    ∧ (periodicTickOps true true).indexOf SyncOp.flushPending
        = (periodicTickOps true true).indexOf SyncOp.pullCloud + 1
    ∧ periodicTickOps true true = [SyncOp.pullCloud, SyncOp.flushPending]
    ∧ setUserIdOps (some uid)
        = [SyncOp.fixIds, SyncOp.startTimer, SyncOp.pullCloud]
    ∧ SyncOp.flushPending ∉ setUserIdOps (some uid)
    ∧ flushBeforePull (setUserIdOps (some uid)) = false := by
  refine ⟨by decide, by decide, by decide, by decide, by decide, rfl, ?_, rfl⟩
  intro hmem
  have hmem2 : SyncOp.flushPending
      ∈ [SyncOp.fixIds, SyncOp.startTimer, SyncOp.pullCloud] := hmem
  exact absurd hmem2 (by decide)

/-- C9: deleteNoteLocally removes exactly the notes with the given id from
the stored note list and leaves both pending queues untouched; the deleted
queued entry of the deleted note keeps counting in getSyncStatus().pendingChanges, and
on a next flush in which every upsert succeeds, every still-queued entry —
in particular any entry of the deleted note — has its upsert attempted. -/
theorem deleteNoteLocally_keeps_pending (st : EngineState) (noteId : String)
    (n : LocalNote) (ok : Nat → Bool)
    (hn : n ∈ st.memPendingNotes) (hok : ∀ k, ok k = true) :
    (deleteNoteLocally st noteId).memPendingNotes = st.memPendingNotes
    ∧ (deleteNoteLocally st noteId).storePendingNotes = st.storePendingNotes
    ∧ (getSyncStatus (deleteNoteLocally st noteId)).pendingChanges
        = (getSyncStatus st).pendingChanges
    ∧ (∀ m ∈ (deleteNoteLocally st noteId).storeNotes, m.id ≠ noteId)
    ∧ n ∈ flushAttempts ok 0 (deleteNoteLocally st noteId).memPendingNotes := by
  refine ⟨rfl, rfl, rfl, ?_, ?_⟩
  · intro m hm
    have := List.of_mem_filter hm
    simpa using this
  · rw [flushAttempts_allOk _ ok 0 hok]
    exact hn

/-- C9 (witness). -/
theorem deleteNoteLocally_keeps_pending_witness :
    (deleteNoteLocally
        ⟨[⟨"a", "ta", 1, []⟩], [⟨"a", "ta", 1, []⟩], [⟨"a", "ta", 1, []⟩],
          [], 0, true, some "u"⟩ "a").memPendingNotes
      = [LocalNote.mk "a" "ta" 1 []]
    ∧ (deleteNoteLocally
        ⟨[⟨"a", "ta", 1, []⟩], [⟨"a", "ta", 1, []⟩], [⟨"a", "ta", 1, []⟩],
          [], 0, true, some "u"⟩ "a").storePendingNotes
      = [LocalNote.mk "a" "ta" 1 []]
    ∧ (getSyncStatus (deleteNoteLocally
        ⟨[⟨"a", "ta", 1, []⟩], [⟨"a", "ta", 1, []⟩], [⟨"a", "ta", 1, []⟩],
          [], 0, true, some "u"⟩ "a")).pendingChanges
      = (getSyncStatus
        ⟨[⟨"a", "ta", 1, []⟩], [⟨"a", "ta", 1, []⟩], [⟨"a", "ta", 1, []⟩],
          [], 0, true, some "u"⟩).pendingChanges
    ∧ (∀ m ∈ (deleteNoteLocally
        ⟨[⟨"a", "ta", 1, []⟩], [⟨"a", "ta", 1, []⟩], [⟨"a", "ta", 1, []⟩],
          [], 0, true, some "u"⟩ "a").storeNotes, m.id ≠ "a")
    ∧ LocalNote.mk "a" "ta" 1 [] ∈ flushAttempts (fun _ => true) 0
        (deleteNoteLocally
        ⟨[⟨"a", "ta", 1, []⟩], [⟨"a", "ta", 1, []⟩], [⟨"a", "ta", 1, []⟩],
          [], 0, true, some "u"⟩ "a").memPendingNotes :=
  deleteNoteLocally_keeps_pending _ "a" (LocalNote.mk "a" "ta" 1 [])
    (fun _ => true) (by simp) (fun _ => rfl)

/-- Filtering a queue preserves distinctness of ids. -/
theorem idsNodup_filter {q : List LocalNote} {p : LocalNote → Bool}
    (h : idsNodup q) : idsNodup (q.filter p) := by
  have hsub : List.Sublist ((q.filter p).map fun n => n.id)
      (q.map fun n => n.id) :=
    (List.filter_sublist q).map (fun n => n.id)
  exact List.Nodup.sublist hsub h

/-- The queue produced by addToPendingNotes has distinct ids. -/
theorem idsNodup_add {q : List LocalNote} (n : LocalNote)
    (h : idsNodup q) :
    idsNodup ((q.filter fun m => m.id ≠ n.id) ++ [n]) := by
  rw [idsNodup, queueIds, List.map_append]
  rw [List.nodup_append]
  refine ⟨idsNodup_filter h, by simp, ?_⟩
  intro s hs
  rcases List.mem_map.mp hs with ⟨m, hm, rfl⟩
  have := List.of_mem_filter hm
  simp only [decide_eq_true_eq] at this
  simpa using this

/-- The flush loop preserves distinctness of queue ids. -/
theorem idsNodup_flushGo :
    ∀ (l : List LocalNote) (ok : Nat → Bool) (k : Nat)
      (mem : List LocalNote), idsNodup mem → idsNodup (flushGo ok k mem l) := by
  intro l
  induction l with
  | nil => intro ok k mem h; exact h
  | cons n rest ih =>
    intro ok k mem h
    by_cases hok : ok k = true
    · have hstep : flushGo ok k mem (n :: rest)
          = flushGo ok (k + 1) (mem.filter fun m => m.id ≠ n.id) rest := by
        simp [flushGo, hok]
      rw [hstep]
      exact ih ok (k + 1) _ (idsNodup_filter h)
    · have hok2 : ok k = false := by simpa using hok
      have hstep : flushGo ok k mem (n :: rest) = mem := by
        simp [flushGo, hok2]
      rw [hstep]; exact h

/-- syncFromCloud never touches either pending queue. -/
theorem syncFromCloud_frame (st : EngineState) (res : PullOutcome)
    (now : Int) :
    (syncFromCloud st res now).memPendingNotes = st.memPendingNotes
    ∧ (syncFromCloud st res now).storePendingNotes = st.storePendingNotes := by
  cases res with
  | failure => simp [syncFromCloud]
  | success rows =>
    simp only [syncFromCloud]
    split
    · split
      · exact ⟨rfl, rfl⟩
      · exact ⟨rfl, rfl⟩
    · exact ⟨rfl, rfl⟩

/-- An addToPendingNotes queue holds the new note as its only entry with
that id. -/
theorem add_filter_self (q : List LocalNote) (n : LocalNote) :
    ((q.filter fun m => m.id ≠ n.id) ++ [n]).filter
        (fun m => m.id = n.id) = [n] := by
  rw [List.filter_append]
  have h1 : (q.filter fun m => m.id ≠ n.id).filter
      (fun m => m.id = n.id) = [] := by
    rw [List.filter_eq_nil_iff]
    intro a ha
    have := List.of_mem_filter ha
    simp only [decide_eq_true_eq] at this ⊢
    exact this
  rw [h1]
  simp

/-- C8: the pending queue keeps at most one entry per note id. Saving the
same id twice while authenticated (before the triggered flush runs) leaves
exactly one queued entry with that id, namely the latest note; and
distinctness of queue ids is preserved by every operation that touches the
queue — addToPendingNotes, saveNoteLocallyCore, the flush, fixOldNoteIds,
deleteNoteLocally and syncFromCloud. -/
theorem pendingNotes_unique (st : EngineState) (n1 n2 note : LocalNote)
    (noteId : String) (ok : Nat → Bool) (res : PullOutcome) (now : Int)
    (gens : Nat → Nat → Nat)
    (hid : n1.id = n2.id) (hauth : st.userId.isSome = true)
    (hnodup : idsNodup st.memPendingNotes)
    (hnodupStore : idsNodup st.storePendingNotes) :
    ((saveNoteLocallyCore (saveNoteLocallyCore st n1) n2).memPendingNotes.filter
        (fun n => n.id = n2.id) = [n2])
    ∧ ((saveNoteLocallyCore (saveNoteLocallyCore st n1) n2).memPendingNotes.filter
        (fun n => n.id = n1.id) = [n2])
    ∧ idsNodup (addToPendingNotes st note).memPendingNotes
    ∧ idsNodup (addToPendingNotes st note).storePendingNotes
    ∧ idsNodup (saveNoteLocallyCore st note).memPendingNotes
    ∧ idsNodup (syncPendingChanges ok st).memPendingNotes
    ∧ idsNodup (syncPendingChanges ok st).storePendingNotes
    ∧ idsNodup (fixOldNoteIds gens st).memPendingNotes
    ∧ idsNodup (fixOldNoteIds gens st).storePendingNotes
    ∧ idsNodup (deleteNoteLocally st noteId).memPendingNotes
    ∧ idsNodup (syncFromCloud st res now).memPendingNotes := by
  have hflush : idsNodup (flushGo ok 0 st.memPendingNotes st.memPendingNotes) :=
    idsNodup_flushGo st.memPendingNotes ok 0 st.memPendingNotes hnodup
  refine ⟨?_, ?_, idsNodup_add note hnodup, idsNodup_add note hnodup, ?_, ?_,
    ?_, ?_, ?_, hnodup, ?_⟩
  · simp only [saveNoteLocallyCore, addToPendingNotes, hauth, if_true]
    exact add_filter_self _ n2
  · rw [hid]
    simp only [saveNoteLocallyCore, addToPendingNotes, hauth, if_true]
    exact add_filter_self _ n2
  · simp only [saveNoteLocallyCore, addToPendingNotes, hauth, if_true]
    exact idsNodup_add note hnodup
  · simp only [syncPendingChanges]
    split
    · exact hflush
    · exact hnodup
  · simp only [syncPendingChanges]
    split
    · exact hflush
    · exact hnodupStore
  · simp only [fixOldNoteIds]
    split
    · exact idsNodup_filter hnodupStore
    · exact hnodup
  · simp only [fixOldNoteIds]
    split
    · exact idsNodup_filter hnodupStore
    · exact hnodupStore
  · rw [(syncFromCloud_frame st res now).1]
    exact hnodup

/-- C8 (witness). -/
theorem pendingNotes_unique_witness :
    ((saveNoteLocallyCore (saveNoteLocallyCore
        ⟨[], [], [], [], 0, false, some "u"⟩
        (LocalNote.mk "a" "first" 1 []))
        (LocalNote.mk "a" "second" 2 [])).memPendingNotes.filter
        (fun n => n.id = (LocalNote.mk "a" "second" 2 []).id)
      = [LocalNote.mk "a" "second" 2 []])
    ∧ ((saveNoteLocallyCore (saveNoteLocallyCore
        ⟨[], [], [], [], 0, false, some "u"⟩
        (LocalNote.mk "a" "first" 1 []))
        (LocalNote.mk "a" "second" 2 [])).memPendingNotes.filter
        (fun n => n.id = (LocalNote.mk "a" "first" 1 []).id)
      = [LocalNote.mk "a" "second" 2 []])
    ∧ idsNodup (addToPendingNotes ⟨[], [], [], [], 0, false, some "u"⟩
        (LocalNote.mk "b" "t" 3 [])).memPendingNotes
    ∧ idsNodup (addToPendingNotes ⟨[], [], [], [], 0, false, some "u"⟩
        (LocalNote.mk "b" "t" 3 [])).storePendingNotes
    ∧ idsNodup (saveNoteLocallyCore ⟨[], [], [], [], 0, false, some "u"⟩
        (LocalNote.mk "b" "t" 3 [])).memPendingNotes
    ∧ idsNodup (syncPendingChanges (fun _ => true)
        ⟨[], [], [], [], 0, false, some "u"⟩).memPendingNotes
    ∧ idsNodup (syncPendingChanges (fun _ => true)
        ⟨[], [], [], [], 0, false, some "u"⟩).storePendingNotes
    ∧ idsNodup (fixOldNoteIds (fun _ _ => 0)
        ⟨[], [], [], [], 0, false, some "u"⟩).memPendingNotes
    ∧ idsNodup (fixOldNoteIds (fun _ _ => 0)
        ⟨[], [], [], [], 0, false, some "u"⟩).storePendingNotes
    ∧ idsNodup (deleteNoteLocally ⟨[], [], [], [], 0, false, some "u"⟩
        "a").memPendingNotes
    ∧ idsNodup (syncFromCloud ⟨[], [], [], [], 0, false, some "u"⟩
        PullOutcome.failure 9).memPendingNotes :=
  pendingNotes_unique ⟨[], [], [], [], 0, false, some "u"⟩
    (LocalNote.mk "a" "first" 1 []) (LocalNote.mk "a" "second" 2 [])
    (LocalNote.mk "b" "t" 3 []) "a" (fun _ => true) PullOutcome.failure 9
    (fun _ _ => 0) rfl rfl (by simp [idsNodup, queueIds])
    (by simp [idsNodup, queueIds])

/-- One pull cycle either leaves the checkpoint alone or sets it to `now`. -/
theorem syncFromCloud_lastSyncTime (st : EngineState) (res : PullOutcome)
    (now : Int) :
    (syncFromCloud st res now).lastSyncTime = st.lastSyncTime
    ∨ (syncFromCloud st res now).lastSyncTime = now := by
  cases res with
  | failure => left; simp [syncFromCloud]
  | success rows =>
    simp only [syncFromCloud]
    split
    · split
      · right; rfl
      · left; rfl
    · left; rfl

/-- Checkpoint monotonicity over a run of pull cycles whose wall-clock
readings are nondecreasing and start no earlier than the checkpoint. -/
theorem runPulls_mono :
    ∀ (events : List (PullOutcome × Int)) (st : EngineState),
      List.Chain' (· ≤ ·) (st.lastSyncTime :: events.map Prod.snd) →
      st.lastSyncTime ≤ (runPulls st events).lastSyncTime := by
  intro events
  induction events with
  | nil => intro st _; exact le_refl _
  | cons e rest ih =>
    obtain ⟨res, now⟩ := e
    intro st hchain
    simp only [List.map_cons] at hchain
    rw [List.chain'_cons] at hchain
    obtain ⟨h1, h2⟩ := hchain
    have hcases := syncFromCloud_lastSyncTime st res now
    have hle : st.lastSyncTime ≤ (syncFromCloud st res now).lastSyncTime := by
      rcases hcases with h | h
      · rw [h]
      · rw [h]; exact h1
    have hchain2 : List.Chain' (· ≤ ·)
        ((syncFromCloud st res now).lastSyncTime :: rest.map Prod.snd) := by
      cases hr : rest.map Prod.snd with
      | nil => simp
      | cons x xs =>
        rw [hr] at h2
        rw [List.chain'_cons] at h2 ⊢
        refine ⟨?_, h2.2⟩
        rcases hcases with h | h
        · rw [h]; exact le_trans h1 h2.1
        · rw [h]; exact h2.1
    exact le_trans hle (ih (syncFromCloud st res now) hchain2)

/-- C5: across any run of pull cycles with nondecreasing Date.now()
readings (starting no earlier than the stored checkpoint, itself a past
reading), lastSyncTime never decreases; a failed pull and a pull returning
zero rows leave the whole state (checkpoint and note list) untouched; and
whenever a pull changes the checkpoint at all, the returned row list was
nonempty and the new checkpoint is exactly the wall-clock time at pull
completion. -/
theorem syncFromCloud_checkpoint (st : EngineState)
    (events : List (PullOutcome × Int)) (s : EngineState) (now : Int)
    (rows : List CloudNote)
    (hchain : List.Chain' (· ≤ ·) (st.lastSyncTime :: events.map Prod.snd)) :
    st.lastSyncTime ≤ (runPulls st events).lastSyncTime
    ∧ syncFromCloud s PullOutcome.failure now = s
    ∧ syncFromCloud s (PullOutcome.success []) now = s
    ∧ ((syncFromCloud s (PullOutcome.success rows) now).lastSyncTime
          ≠ s.lastSyncTime →
        rows ≠ []
        ∧ (syncFromCloud s (PullOutcome.success rows) now).lastSyncTime
            = now) := by
  refine ⟨runPulls_mono events st hchain, by simp [syncFromCloud],
    by simp [syncFromCloud], ?_⟩
  intro hne
  by_cases hg : (s.userId.isSome && s.isOnline) = true
  · cases rows with
    | nil => exact absurd (by simp [syncFromCloud, hg]) hne
    | cons c cs =>
      refine ⟨by simp, ?_⟩
      simp [syncFromCloud, hg]
  · exact absurd (by simp [syncFromCloud, hg]) hne

/-- C5 (witness). -/
theorem syncFromCloud_checkpoint_witness :
    (EngineState.mk [] [] [] [] 0 true (some "u")).lastSyncTime
      ≤ (runPulls (EngineState.mk [] [] [] [] 0 true (some "u"))
          [(PullOutcome.success [CloudNote.mk "a" "c" 5 []], 10),
            (PullOutcome.failure, 12)]).lastSyncTime
    ∧ syncFromCloud (EngineState.mk [] [] [] [] 0 true (some "u"))
        PullOutcome.failure 3
      = EngineState.mk [] [] [] [] 0 true (some "u")
    ∧ syncFromCloud (EngineState.mk [] [] [] [] 0 true (some "u"))
        (PullOutcome.success []) 3
      = EngineState.mk [] [] [] [] 0 true (some "u")
    ∧ ((syncFromCloud (EngineState.mk [] [] [] [] 0 true (some "u"))
          (PullOutcome.success [CloudNote.mk "b" "d" 7 []]) 3).lastSyncTime
          ≠ (EngineState.mk [] [] [] [] 0 true (some "u")).lastSyncTime →
        [CloudNote.mk "b" "d" 7 []] ≠ ([] : List CloudNote)
        ∧ (syncFromCloud (EngineState.mk [] [] [] [] 0 true (some "u"))
            (PullOutcome.success [CloudNote.mk "b" "d" 7 []]) 3).lastSyncTime
            = 3) :=
  syncFromCloud_checkpoint (EngineState.mk [] [] [] [] 0 true (some "u"))
    [(PullOutcome.success [CloudNote.mk "a" "c" 5 []], 10),
      (PullOutcome.failure, 12)]
    (EngineState.mk [] [] [] [] 0 true (some "u")) 3
    [CloudNote.mk "b" "d" 7 []]
    (by simp [List.chain'_cons])

/-- Characters of the template that are not substitution markers survive
the UUID substitution. -/
theorem mem_replaceUuidChars (r : Nat → Nat) (c : Char)
    (hx : c ≠ 'x') (hy : c ≠ 'y') :
    ∀ (cs : List Char) (k : Nat), c ∈ cs → c ∈ replaceUuidChars r k cs := by
  intro cs
  induction cs with
  | nil => intro k h; cases h
  | cons d ds ih =>
    intro k h
    rcases List.mem_cons.mp h with rfl | hmem
    · simp only [replaceUuidChars, if_neg hx, if_neg hy]
      exact List.mem_cons_self _ _
    · by_cases hdx : d = 'x'
      · subst hdx
        simp only [replaceUuidChars, if_pos rfl]
        exact List.mem_cons_of_mem _ (ih (k + 1) hmem)
      · by_cases hdy : d = 'y'
        · subst hdy
          simp only [replaceUuidChars, if_neg (by decide : ¬('y' = 'x')),
            if_pos rfl]
          exact List.mem_cons_of_mem _ (ih (k + 1) hmem)
        · simp only [replaceUuidChars, if_neg hdx, if_neg hdy]
          exact List.mem_cons_of_mem _ (ih k hmem)

/-- A generated UUID always contains the dash of the template, so it never
matches the digit-only pattern, whatever Math.random returns. -/
theorem isTimestampId_generateUUID (r : Nat → Nat) :
    isTimestampId (generateUUID r) = false := by
  have hdash : '-' ∈ replaceUuidChars r 0 uuidTemplate :=
    mem_replaceUuidChars r '-' (by decide) (by decide) uuidTemplate 0
      (by decide)
  have hdata : (generateUUID r).data = replaceUuidChars r 0 uuidTemplate := rfl
  have hall : (replaceUuidChars r 0 uuidTemplate).all
      (fun ch => ch.isDigit) = false := by
    rw [List.all_eq_false]
    exact ⟨'-', hdash, by decide⟩
  simp only [isTimestampId, hdata, hall, Bool.and_false]

/-- The notes.map of fixOldNoteIds keeps the list length. -/
theorem fixNotesGo_length (gens : Nat → Nat → Nat) :
    ∀ (notes : List LocalNote) (k : Nat),
      (fixNotesGo gens k notes).length = notes.length := by
  intro notes
  induction notes with
  | nil => intro k; rfl
  | cons m ms ih =>
    intro k
    by_cases hts : isTimestampId m.id
    · simp [fixNotesGo, hts, ih (k + 1)]
    · simp [fixNotesGo, hts, ih k]

/-- After the rewrite pass, no note id matches the digit-only pattern. -/
theorem fixNotesGo_not_ts (gens : Nat → Nat → Nat) :
    ∀ (notes : List LocalNote) (k : Nat) (n : LocalNote),
      n ∈ fixNotesGo gens k notes → isTimestampId n.id = false := by
  intro notes
  induction notes with
  | nil => intro k n h; cases h
  | cons m ms ih =>
    intro k n h
    by_cases hts : isTimestampId m.id
    · rw [show fixNotesGo gens k (m :: ms)
          = { m with id := generateUUID (gens k) }
              :: fixNotesGo gens (k + 1) ms by simp [fixNotesGo, hts]] at h
      rcases List.mem_cons.mp h with rfl | hmem
      · exact isTimestampId_generateUUID (gens k)
      · exact ih (k + 1) n hmem
    · rw [show fixNotesGo gens k (m :: ms)
          = m :: fixNotesGo gens k ms by simp [fixNotesGo, hts]] at h
      rcases List.mem_cons.mp h with rfl | hmem
      · exact Bool.eq_false_iff.mpr hts
      · exact ih k n hmem

/-- Pointwise description of the rewrite pass: the j-th output note is the
j-th input note, with a fresh UUID precisely when its id was digit-only;
the UUID call index is the number of digit-only ids before position j. -/
theorem fixNotesGo_getElem (gens : Nat → Nat → Nat) :
    ∀ (notes : List LocalNote) (k j : Nat) (n : LocalNote),
      notes[j]? = some n →
      (fixNotesGo gens k notes)[j]? =
        some (if isTimestampId n.id then
          { n with id := generateUUID (gens
              (k + (notes.take j).countP fun m => isTimestampId m.id)) }
        else n) := by
  intro notes
  induction notes with
  | nil => intro k j n h; simp at h
  | cons m ms ih =>
    intro k j n h
    cases j with
    | zero =>
      have hm : m = n := by simpa using h
      subst hm
      by_cases hts : isTimestampId m.id
      · simp [fixNotesGo, hts]
      · simp [fixNotesGo, hts]
    | succ j =>
      have hms : ms[j]? = some n := by simpa using h
      have hcount : ((m :: ms).take (j + 1)).countP
          (fun x => isTimestampId x.id)
          = ((ms.take j).countP fun x => isTimestampId x.id)
            + (if isTimestampId m.id then 1 else 0) := by
        simp [List.take_succ_cons, List.countP_cons]
      by_cases hts : isTimestampId m.id
      · rw [show fixNotesGo gens k (m :: ms)
            = { m with id := generateUUID (gens k) }
                :: fixNotesGo gens (k + 1) ms by simp [fixNotesGo, hts]]
        rw [List.getElem?_cons_succ]
        rw [ih (k + 1) j n hms]
        rw [hcount]
        simp only [hts, if_true]
        have harith : k + 1 + ((ms.take j).countP fun x => isTimestampId x.id)
            = k + (((ms.take j).countP fun x => isTimestampId x.id) + 1) := by
          omega
        rw [harith]
      · rw [show fixNotesGo gens k (m :: ms)
            = m :: fixNotesGo gens k ms by simp [fixNotesGo, hts]]
        rw [List.getElem?_cons_succ]
        rw [ih k j n hms]
        rw [hcount]
        simp [hts]

/-- C6: fixOldNoteIds rewrites exactly the stored notes whose id is
digit-only, giving each a freshly generated UUID (the k-th rewritten note
uses the k-th generateUUID call) — an id that can never be digit-only —
leaves every other note unchanged, drops exactly the digit-only entries
from the pending queue, and the store ends up holding the rewritten note
list and the pruned pending list. -/
theorem fixOldNoteIds_spec (gens : Nat → Nat → Nat) (st : EngineState)
    (j : Nat) (n : LocalNote) (r : Nat → Nat)
    (hj : st.storeNotes[j]? = some n) :
    (fixOldNoteIds gens st).storePendingNotes
      = st.storePendingNotes.filter (fun m => !(isTimestampId m.id))
    ∧ (fixOldNoteIds gens st).storeNotes.length = st.storeNotes.length
    ∧ (fixOldNoteIds gens st).storeNotes[j]?
      = some (if isTimestampId n.id then
          { n with id := generateUUID (gens
              ((st.storeNotes.take j).countP fun m => isTimestampId m.id)) }
        else n)
    ∧ isTimestampId (generateUUID r) = false := by
  by_cases hc : (st.storeNotes.any (fun note => isTimestampId note.id)
      || (st.storePendingNotes.length
          != (st.storePendingNotes.filter
              fun note => !(isTimestampId note.id)).length)) = true
  · have hres : fixOldNoteIds gens st =
        { st with storeNotes := fixNotesGo gens 0 st.storeNotes
                  storePendingNotes := st.storePendingNotes.filter
                    fun note => !(isTimestampId note.id)
                  memPendingNotes := st.storePendingNotes.filter
                    fun note => !(isTimestampId note.id) } := by
      simp only [fixOldNoteIds]
      rw [if_pos hc]
    rw [hres]
    refine ⟨rfl, fixNotesGo_length gens st.storeNotes 0, ?_,
      isTimestampId_generateUUID r⟩
    have := fixNotesGo_getElem gens st.storeNotes 0 j n hj
    simpa using this
  · have hsplit := Bool.or_eq_false_iff.mp (Bool.eq_false_iff.mpr hc)
    have hany : st.storeNotes.any (fun note => isTimestampId note.id)
        = false := hsplit.1
    have hlen : st.storePendingNotes.length
        = (st.storePendingNotes.filter
            fun note => !(isTimestampId note.id)).length := by
      have := hsplit.2
      simpa using this
    have hfilter : (st.storePendingNotes.filter
        fun note => !(isTimestampId note.id)) = st.storePendingNotes :=
      (List.filter_sublist st.storePendingNotes).eq_of_length hlen.symm
    have hres : fixOldNoteIds gens st = st := by
      simp only [fixOldNoteIds]
      rw [if_neg hc]
    rw [hres]
    have hnotts : isTimestampId n.id = false := by
      have hmem : n ∈ st.storeNotes := by
        rcases List.getElem?_eq_some_iff.mp hj with ⟨hlt, hget⟩
        exact hget ▸ List.getElem_mem hlt
      exact Bool.eq_false_iff.mpr (List.any_eq_false.mp hany n hmem)
    refine ⟨hfilter.symm, rfl, ?_, isTimestampId_generateUUID r⟩
    rw [hj, hnotts]
    simp

/-- C6 (witness): one digit-only note is rewritten, one UUID-style note is
kept, and the digit-only pending entry is dropped. -/
theorem fixOldNoteIds_spec_witness :
    (fixOldNoteIds (fun _ _ => 0)
        ⟨[⟨"123", "t1", 1, []⟩, ⟨"ab-c", "t2", 2, []⟩],
          [⟨"456", "t3", 3, []⟩], [⟨"456", "t3", 3, []⟩],
          [], 0, true, some "u"⟩).storePendingNotes
      = [LocalNote.mk "456" "t3" 3 []].filter
          (fun m => !(isTimestampId m.id))
    ∧ (fixOldNoteIds (fun _ _ => 0)
        ⟨[⟨"123", "t1", 1, []⟩, ⟨"ab-c", "t2", 2, []⟩],
          [⟨"456", "t3", 3, []⟩], [⟨"456", "t3", 3, []⟩],
          [], 0, true, some "u"⟩).storeNotes.length
      = [LocalNote.mk "123" "t1" 1 [], LocalNote.mk "ab-c" "t2" 2 []].length
    ∧ (fixOldNoteIds (fun _ _ => 0)
        ⟨[⟨"123", "t1", 1, []⟩, ⟨"ab-c", "t2", 2, []⟩],
          [⟨"456", "t3", 3, []⟩], [⟨"456", "t3", 3, []⟩],
          [], 0, true, some "u"⟩).storeNotes[1]?
      = some (if isTimestampId (LocalNote.mk "ab-c" "t2" 2 []).id then
          { LocalNote.mk "ab-c" "t2" 2 [] with
              id := generateUUID ((fun _ _ => (0 : Nat))
                (([LocalNote.mk "123" "t1" 1 [],
                    LocalNote.mk "ab-c" "t2" 2 []].take 1).countP
                  fun m => isTimestampId m.id)) }
        else LocalNote.mk "ab-c" "t2" 2 [])
    ∧ isTimestampId (generateUUID (fun _ => 5)) = false :=
  fixOldNoteIds_spec (fun _ _ => 0)
    ⟨[⟨"123", "t1", 1, []⟩, ⟨"ab-c", "t2", 2, []⟩],
      [⟨"456", "t3", 3, []⟩], [⟨"456", "t3", 3, []⟩],
      [], 0, true, some "u"⟩
    1 (LocalNote.mk "ab-c" "t2" 2 []) (fun _ => 5) (by rfl)

/-- A state with no digit-only stored note id and no digit-only pending
entry is a fixed point of fixOldNoteIds. -/
theorem fixOldNoteIds_no_change (g : Nat → Nat → Nat) (s : EngineState)
    (h1 : s.storeNotes.any (fun note => isTimestampId note.id) = false)
    (h2 : (s.storePendingNotes.filter fun note => !(isTimestampId note.id))
        = s.storePendingNotes) :
    fixOldNoteIds g s = s := by
  have hcond : ¬((s.storeNotes.any (fun note => isTimestampId note.id)
      || (s.storePendingNotes.length
          != (s.storePendingNotes.filter
              fun note => !(isTimestampId note.id)).length)) = true) := by
    rw [h1, h2]
    simp
  simp only [fixOldNoteIds]
  rw [if_neg hcond]

/-- C7: fixOldNoteIds is idempotent on the whole service state — a second
run (with any fresh randomness) changes nothing, because after the first
run no stored or pending id still matches the digit-only pattern. -/
theorem fixOldNoteIds_idempotent (g1 g2 : Nat → Nat → Nat)
    (st : EngineState) :
    fixOldNoteIds g2 (fixOldNoteIds g1 st) = fixOldNoteIds g1 st := by
  by_cases hc : (st.storeNotes.any (fun note => isTimestampId note.id)
      || (st.storePendingNotes.length
          != (st.storePendingNotes.filter
              fun note => !(isTimestampId note.id)).length)) = true
  · have hres : fixOldNoteIds g1 st =
        { st with storeNotes := fixNotesGo g1 0 st.storeNotes
                  storePendingNotes := st.storePendingNotes.filter
                    fun note => !(isTimestampId note.id)
                  memPendingNotes := st.storePendingNotes.filter
                    fun note => !(isTimestampId note.id) } := by
      simp only [fixOldNoteIds]
      rw [if_pos hc]
    rw [hres]
    apply fixOldNoteIds_no_change
    · exact List.any_eq_false.mpr
        (fun n hn => Bool.eq_false_iff.mp
          (fixNotesGo_not_ts g1 st.storeNotes 0 n hn))
    · apply List.filter_eq_self.mpr
      intro a ha
      have ha2 : a ∈ List.filter (fun note => !(isTimestampId note.id))
          st.storePendingNotes := ha
      simpa using (List.mem_filter.mp ha2).2
  · have hres : ∀ g : Nat → Nat → Nat, fixOldNoteIds g st = st := by
      intro g
      simp only [fixOldNoteIds]
      rw [if_neg hc]
    rw [hres g1, hres g2]

/-- Keys of the modelled JS Map, in insertion order. -/
def mapKeys (m : List (String × LocalNote)) : List String := m.map Prod.fst

/-- Updating a present key leaves the key list unchanged. -/
theorem mapKeys_mapSet_of_mem (m : List (String × LocalNote)) (k : String)
    (v : LocalNote) (hk : (m.any fun p => p.1 = k) = true) :
    mapKeys (mapSet m k v) = mapKeys m := by
  simp only [mapSet, if_pos hk, mapKeys, List.map_map]
  apply List.map_congr_left
  intro p hp
  by_cases h : p.1 = k
  · simp [Function.comp, h]
  · simp [Function.comp, h]

/-- mapSet never removes a key. -/
theorem mem_mapKeys_mapSet (m : List (String × LocalNote)) (k : String)
    (v : LocalNote) (s : String) (hs : s ∈ mapKeys m) :
    s ∈ mapKeys (mapSet m k v) := by
  by_cases hk : (m.any fun p => p.1 = k) = true
  · rw [mapKeys_mapSet_of_mem m k v hk]; exact hs
  · have happ : mapSet m k v = m ++ [(k, v)] := by
      simp only [mapSet, if_neg hk]
    rw [happ, mapKeys, List.map_append]
    exact List.mem_append.mpr (Or.inl hs)

/-- mapSet puts its key into the map. -/
theorem self_mem_mapKeys_mapSet (m : List (String × LocalNote)) (k : String)
    (v : LocalNote) : k ∈ mapKeys (mapSet m k v) := by
  by_cases hk : (m.any fun p => p.1 = k) = true
  · rw [mapKeys_mapSet_of_mem m k v hk]
    rcases List.any_eq_true.mp hk with ⟨p, hp, hpk⟩
    have hpk2 : p.1 = k := by simpa using hpk
    exact hpk2 ▸ List.mem_map_of_mem Prod.fst hp
  · have happ : mapSet m k v = m ++ [(k, v)] := by
      simp only [mapSet, if_neg hk]
    rw [happ, mapKeys, List.map_append]
    exact List.mem_append.mpr (Or.inr (by simp))

/-- Every stored value carries exactly its key as id. -/
def mapGood (m : List (String × LocalNote)) : Prop :=
  ∀ p ∈ m, (p.2).id = p.1

/-- mapSet preserves the key-id coherence when the inserted value has the
inserted key as id. -/
theorem mapGood_mapSet (m : List (String × LocalNote)) (k : String)
    (v : LocalNote) (hm : mapGood m) (hv : v.id = k) :
    mapGood (mapSet m k v) := by
  intro p hp
  simp only [mapSet] at hp
  split at hp
  · rcases List.mem_map.mp hp with ⟨q, hq, rfl⟩
    by_cases h : q.1 = k
    · simp [h, hv]
    · simp only [if_neg h]
      exact hm q hq
  · rcases List.mem_append.mp hp with h | h
    · exact hm p h
    · have : p = (k, v) := by simpa using h
      subst this
      exact hv

/-- The local-insert fold never removes keys. -/
theorem foldl_local_keys :
    ∀ (l : List LocalNote) (m : List (String × LocalNote)) (s : String),
      s ∈ mapKeys m →
      s ∈ mapKeys (l.foldl (fun m note => mapSet m note.id note) m) := by
  intro l
  induction l with
  | nil => intro m s hs; exact hs
  | cons a l ih =>
    intro m s hs
    exact ih (mapSet m a.id a) s (mem_mapKeys_mapSet m a.id a s hs)

/-- After the local-insert fold, every local note id is a key. -/
theorem mem_foldl_local_keys :
    ∀ (l : List LocalNote) (m : List (String × LocalNote)) (n : LocalNote),
      n ∈ l →
      n.id ∈ mapKeys (l.foldl (fun m note => mapSet m note.id note) m) := by
  intro l
  induction l with
  | nil => intro m n h; cases h
  | cons a l ih =>
    intro m n h
    rcases List.mem_cons.mp h with rfl | hmem
    · exact foldl_local_keys l (mapSet m n.id n) n.id
        (self_mem_mapKeys_mapSet m n.id n)
    · exact ih (mapSet m a.id a) n hmem

/-- The cloud fold never removes keys. -/
theorem foldl_cloud_keys :
    ∀ (cs : List CloudNote) (m : List (String × LocalNote)) (s : String),
      s ∈ mapKeys m → s ∈ mapKeys (cs.foldl mergeStep m) := by
  intro cs
  induction cs with
  | nil => intro m s hs; exact hs
  | cons c cs ih =>
    intro m s hs
    apply ih
    simp only [mergeStep]
    split
    · exact mem_mapKeys_mapSet m c.id _ s hs
    · split
      · exact mem_mapKeys_mapSet m c.id _ s hs
      · exact hs

/-- The local-insert fold preserves key-id coherence. -/
theorem foldl_local_good :
    ∀ (l : List LocalNote) (m : List (String × LocalNote)),
      mapGood m →
      mapGood (l.foldl (fun m note => mapSet m note.id note) m) := by
  intro l
  induction l with
  | nil => intro m hm; exact hm
  | cons a l ih =>
    intro m hm
    exact ih (mapSet m a.id a) (mapGood_mapSet m a.id a hm rfl)

/-- The cloud fold preserves key-id coherence. -/
theorem foldl_cloud_good :
    ∀ (cs : List CloudNote) (m : List (String × LocalNote)),
      mapGood m → mapGood (cs.foldl mergeStep m) := by
  intro cs
  induction cs with
  | nil => intro m hm; exact hm
  | cons c cs ih =>
    intro m hm
    apply ih
    simp only [mergeStep]
    split
    · exact mapGood_mapSet m c.id _ hm rfl
    · split
      · exact mapGood_mapSet m c.id _ hm rfl
      · exact hm

/-- C10: a pull merge never drops a local note id — every id present in the
local list before the merge is still present in the merged result, because
mergeNotes only ever inserts remote-only rows or replaces same-id notes, so
a remote deletion is never propagated locally by a sync pull. -/
theorem mergeNotes_keeps_local_ids (localNotes : List LocalNote)
    (cloudNotes : List CloudNote) (n : LocalNote) (hn : n ∈ localNotes) :
    ∃ m ∈ mergeNotes localNotes cloudNotes, m.id = n.id := by
  have hkey : n.id ∈ mapKeys (cloudNotes.foldl mergeStep
      (localNotes.foldl (fun m note => mapSet m note.id note) [])) :=
    foldl_cloud_keys cloudNotes _ n.id (mem_foldl_local_keys localNotes [] n hn)
  have hgood : mapGood (cloudNotes.foldl mergeStep
      (localNotes.foldl (fun m note => mapSet m note.id note) [])) :=
    foldl_cloud_good cloudNotes _
      (foldl_local_good localNotes [] (fun p hp => absurd hp (by simp)))
  rcases List.mem_map.mp hkey with ⟨p, hp, hpk⟩
  refine ⟨p.2, ?_, ?_⟩
  · simp only [mergeNotes]
    rw [List.mem_mergeSort]
    exact List.mem_map_of_mem Prod.snd hp
  · rw [hgood p hp, hpk]

/-- C10 (witness): the locally present note "a" survives a pull whose rows
contain only other ids. -/
theorem mergeNotes_keeps_local_ids_witness :
    ∃ m ∈ mergeNotes [LocalNote.mk "a" "t" 5 []]
      [CloudNote.mk "b" "c" 9 []], m.id = (LocalNote.mk "a" "t" 5 []).id :=
  mergeNotes_keeps_local_ids [LocalNote.mk "a" "t" 5 []]
    [CloudNote.mk "b" "c" 9 []] (LocalNote.mk "a" "t" 5 []) (by simp)
